import Mathlib

/-!
Verification of the file-compressor CLI (src/main.rs) against its
specification.  The program is embedded shallowly: file contents are lists of
bytes (`List Nat`), the filesystem is a partial map from paths to contents,
the gzip encoder (an external library) is a parameter `encode` mapping a
compression strength and the byte stream written into the sink to the bytes
of the finalized container, and IEEE doubles are modelled exactly as
rationals extended with the special values `+inf`, `-inf` and `NaN`
(`Float64` below), which is faithful for the sign, finiteness and
division-by-zero behaviour the claims are about.
-/

namespace FileCompressor

/-- Model of `f64`: an exact rational together with the IEEE special values.
Rounding is not modelled; the claims concern signs, bounds and the
division-by-zero specials, for which exact arithmetic agrees with IEEE. -/
inductive Float64 where
  | finite (q : ℚ)
  | posInf
  | negInf
  | nan
deriving DecidableEq

/-- Whether the modelled double is an ordinary (finite) number. -/
def Float64.isFinite : Float64 → Bool
  | .finite _ => true
  | _ => false

/-- IEEE division on the model: a nonzero finite numerator over zero gives a
signed infinity, `0.0 / 0.0` gives NaN. -/
def f64div (a b : Float64) : Float64 :=
  match a, b with
  | .nan, _ => .nan
  | _, .nan => .nan
  | .finite x, .finite y =>
      if y = 0 then
        if x = 0 then .nan else if 0 < x then .posInf else .negInf
      else .finite (x / y)
  | .finite _, .posInf => .finite 0
  | .finite _, .negInf => .finite 0
  | .posInf, .finite y => if 0 ≤ y then .posInf else .negInf
  | .negInf, .finite y => if 0 ≤ y then .negInf else .posInf
  | .posInf, .posInf => .nan
  | .posInf, .negInf => .nan
  | .negInf, .posInf => .nan
  | .negInf, .negInf => .nan

/-- IEEE subtraction on the model: finite minus `+inf` is `-inf`, etc. -/
def f64sub (a b : Float64) : Float64 :=
  match a, b with
  | .nan, _ => .nan
  | _, .nan => .nan
  | .finite x, .finite y => .finite (x - y)
  | .finite _, .posInf => .negInf
  | .finite _, .negInf => .posInf
  | .posInf, .finite _ => .posInf
  | .negInf, .finite _ => .negInf
  | .posInf, .posInf => .nan
  | .posInf, .negInf => .posInf
  | .negInf, .posInf => .negInf
  | .negInf, .negInf => .nan

/-- IEEE multiplication of the model by a finite constant scale factor
(only scaling by `100.0` is used, for the percentage display). -/
def f64scale (c : ℚ) : Float64 → Float64
  | .finite q => .finite (q * c)
  | .posInf => if c = 0 then .nan else if 0 < c then .posInf else .negInf
  | .negInf => if c = 0 then .nan else if 0 < c then .negInf else .posInf
  | .nan => .nan

/-- `flate2::Compression`, a newtype over the numeric gzip level. -/
structure Compression where
  level : Nat
deriving DecidableEq

/-- `Compression::fast()` is level 1. -/
def Compression.fast : Compression := ⟨1⟩

/-- `Compression::best()` is level 9. -/
def Compression.best : Compression := ⟨9⟩

/-- `Compression::default()` is level 6. -/
def Compression.defaultLevel : Compression := ⟨6⟩

/-- `get_compression_level` from src/main.rs: resolves the `--compression`
string, falling back to the default strength on anything unrecognized. -/
def get_compression_level (level : String) : Compression :=
  match level with
  | "fast" => Compression.fast
  | "best" => Compression.best
  | _ => Compression.defaultLevel

/-- `CompressionError` from src/main.rs. -/
inductive CompressionError where
  | IoError (cause : String)
  | InvalidInput (msg : String)
deriving DecidableEq

/-- The `From<io::Error> for CompressionError` impl: every underlying I/O
failure is wrapped as `IoError` with its cause.  The `io::Error` itself is
represented by its reported cause string. -/
def CompressionError.of_io_error (cause : String) : CompressionError :=
  CompressionError.IoError cause

/-- `CompressionStats` from src/main.rs.  `elapsed` is the measured wall
time in nanoseconds, taken as an input of the model since real time is not
derivable from the embedding. -/
structure CompressionStats where
  source_size : Nat
  target_size : Nat
  elapsed : Nat
  compression_ratio : Float64
deriving DecidableEq

/-- The filesystem: a path resolves to the bytes of an existing file, or to
nothing. -/
def FS : Type := String → Option (List Nat)

/-- The 1 MiB read buffer size of the progress loop (`vec![0; 1024 * 1024]`). -/
def chunk_size : Nat := 1024 * 1024

/-- The progress-enabled read/write loop of `compress_file`, lines 74-86:
each iteration reads up to `chunk_size` bytes from the input, writes that
chunk into the encoder, advances `total_read` by the chunk length and posts
it to the progress bar.  The result records every iteration as the pair
(chunk written to the encoder, value of `total_read` posted after the
write); the loop breaks when a read returns zero bytes. -/
def progress_iters (input : List Nat) (total_read : Nat) :
    List (List Nat × Nat) :=
  if h : input = [] then []
  else
    let chunk := input.take chunk_size
    let total := total_read + chunk.length
    (chunk, total) :: progress_iters (input.drop chunk_size) total
termination_by input.length
decreasing_by
  simp only [List.length_drop]
  have hl : 0 < input.length := List.length_pos.mpr h
  simp only [chunk_size]
  omega

/-- The byte stream the progress path feeds into the encoder: the
concatenation of all chunks written. -/
def progress_written (input : List Nat) : List Nat :=
  ((progress_iters input 0).map Prod.fst).flatten

/-- `compress_file` from src/main.rs, parameterized by the external gzip
encoder `encode` (strength and byte stream written into the sink, to the
finalized container bytes).  Returns the filesystem after the call together
with the result.  In the model the only failing operation is the source
existence check (pure reads and writes on the map cannot fault); a missing
source yields `InvalidInput` naming the path, before the destination is
touched.  On the success path the destination is created with the encoded
bytes, sizes are re-read (`target` from the created file, `source` via the
still-open input handle, the unmodified content), and the ratio is the f64
computation `1.0 - target_size as f64 / source_size as f64`. -/
def compress_file (encode : Compression → List Nat → List Nat) (fs : FS)
    (source target : String) (compression_level : Compression)
    (show_progress : Bool) (elapsed : Nat) :
    FS × Except CompressionError CompressionStats :=
  match fs source with
  | none =>
      (fs, Except.error (CompressionError.InvalidInput
        ("Source file '" ++ source ++ "' does not exist")))
  | some content =>
      let written :=
        if show_progress then progress_written content else content
      let out := encode compression_level written
      let fs2 : FS := fun p => if p = target then some out else fs p
      let target_size := out.length
      let source_size := content.length
      let compression_ratio :=
        f64sub (Float64.finite 1)
          (f64div (Float64.finite (target_size : ℚ))
            (Float64.finite (source_size : ℚ)))
      (fs2, Except.ok ⟨source_size, target_size, elapsed, compression_ratio⟩)

/-- Rounding a rational to `d` decimal places, as the fixed-precision
format specifiers (`{:.2}`, `{:.1}`) do. -/
def roundTo (d : Nat) (q : ℚ) : ℚ := (round (q * 10 ^ d) : ℤ) / 10 ^ d

/-- `{:.1}` applied to a modelled double: finite values are rounded to one
decimal place, the specials print as themselves. -/
def f64roundTo (d : Nat) : Float64 → Float64
  | .finite q => .finite (roundTo d q)
  | x => x

/-- The quantities `main` renders in the success summary, lines 150-167:
the source size in MB to two decimals (`{:.2} MB` of `size / 1_048_576.0`),
the compressed size in MB with default (exact-value) formatting
(`{}` of `size / 1_048_576.0`), the ratio as a percentage to one decimal
(`{:.1}%` of `ratio * 100.0`), and the elapsed time with sub-second
precision (`{:.2?}` of the `Duration`; modelled as the exact value in
seconds of the nanosecond count). -/
structure RenderedStats where
  source_mb : ℚ
  target_mb : ℚ
  ratio_percent : Float64
  elapsed_secs : ℚ
deriving DecidableEq

/-- The statistics report of `main` as a function of the stats value. -/
def render_stats (stats : CompressionStats) : RenderedStats :=
  { source_mb := roundTo 2 ((stats.source_size : ℚ) / 1048576)
    target_mb := (stats.target_size : ℚ) / 1048576
    ratio_percent := f64roundTo 1 (f64scale 100 stats.compression_ratio)
    elapsed_secs := (stats.elapsed : ℚ) / 1000000000 }

/-- The error line `main` prints on failure, lines 173-181: an `IoError` is
rendered as `IO error: {cause}`, an `InvalidInput` as its message. -/
def render_error : CompressionError → String
  | CompressionError.IoError e => "IO error: " ++ e
  | CompressionError.InvalidInput e => e

/-- The observable outcome of `main`: the process exit code, the success
summary (printed to stdout when the job succeeded), and the error line
(printed to stderr when it failed). -/
structure MainOutcome where
  exit_code : Nat
  summary : Option RenderedStats
  error_line : Option String
deriving DecidableEq

/-- The `match` at the end of `main`, lines 149-183: a success prints the
summary and falls off the end of `main` (exit code 0), an error prints the
rendered error line and calls `std::process::exit(1)`. -/
def run_main (r : Except CompressionError CompressionStats) : MainOutcome :=
  match r with
  | Except.ok stats => ⟨0, some (render_stats stats), none⟩
  | Except.error e => ⟨1, none, some (render_error e)⟩

/-- A concrete encoder standing in for gzip in witnesses: a two-byte header
followed by the payload (like gzip, it emits container bytes even for an
empty input). -/
def encode0 : Compression → List Nat → List Nat :=
  fun _ data => 31 :: 139 :: data

/-- A concrete filesystem holding one empty file, for witnesses. -/
def fs_empty : FS :=
  fun p => if p = "empty.txt" then some [] else none

/-- A concrete filesystem holding one three-byte file, for witnesses. -/
def fs_small : FS :=
  fun p => if p = "data.txt" then some [7, 8, 9] else none

/-- A concrete filesystem with no files at all, for witnesses. -/
def fs_none : FS := fun _ => none

/-- Bookkeeping check over the recorded iterations of the progress loop:
starting from counter value `t`, every recorded position equals the
previous counter advanced by exactly the length of the chunk written in
that iteration. -/
def steps_ok : Nat → List (List Nat × Nat) → Bool
  | _, [] => true
  | t, (c, p) :: rest => (p == t + c.length) && steps_ok p rest

/-- The loop records no iteration exactly on an empty input (the very first
read returns zero bytes). -/
theorem progress_iters_nil (t : Nat) : progress_iters [] t = [] := by
  rw [progress_iters]
  simp

/-- One unfolding of the loop on a nonempty input. -/
theorem progress_iters_cons (input : List Nat) (t : Nat) (h : input ≠ []) :
    progress_iters input t =
      (input.take chunk_size, t + (input.take chunk_size).length)
        :: progress_iters (input.drop chunk_size)
            (t + (input.take chunk_size).length) := by
  rw [progress_iters]
  simp [h]

/-- The chunks written by the progress loop concatenate back to exactly the
input byte stream, in order. -/
theorem progress_iters_flatten (input : List Nat) (t : Nat) :
    ((progress_iters input t).map Prod.fst).flatten = input := by
  by_cases h : input = []
  · subst h
    rw [progress_iters_nil]
    rfl
  · rw [progress_iters_cons input t h]
    simp only [List.map_cons, List.flatten_cons]
    rw [progress_iters_flatten (input.drop chunk_size)]
    exact List.take_append_drop _ _
termination_by input.length
decreasing_by
  simp only [List.length_drop]
  have hl : 0 < input.length := List.length_pos.mpr h
  simp only [chunk_size]
  omega

/-- The byte stream the progress path writes equals the input. -/
theorem progress_written_eq (input : List Nat) :
    progress_written input = input :=
  progress_iters_flatten input 0

/-- Every recorded `total_read` value is the previous one advanced by
exactly the length of the chunk written in that iteration. -/
theorem steps_ok_progress_iters (input : List Nat) (t : Nat) :
    steps_ok t (progress_iters input t) = true := by
  by_cases h : input = []
  · subst h
    rw [progress_iters_nil]
    rfl
  · rw [progress_iters_cons input t h]
    rw [steps_ok]
    simp only [Bool.and_eq_true, beq_iff_eq]
    exact ⟨trivial, steps_ok_progress_iters (input.drop chunk_size) _⟩
termination_by input.length
decreasing_by
  simp only [List.length_drop]
  have hl : 0 < input.length := List.length_pos.mpr h
  simp only [chunk_size]
  omega

/-- Every recorded counter value stays within `t` plus the number of bytes
remaining to be read. -/
theorem progress_iters_pos_le (input : List Nat) (t : Nat) :
    ∀ p ∈ (progress_iters input t).map Prod.snd, p ≤ t + input.length := by
  by_cases h : input = []
  · subst h
    rw [progress_iters_nil]
    intro p hp
    simp at hp
  · rw [progress_iters_cons input t h]
    intro p hp
    simp only [List.map_cons, List.mem_cons] at hp
    rcases hp with hp | hp
    · subst hp
      simp only [List.length_take]
      omega
    · have ih := progress_iters_pos_le (input.drop chunk_size)
        (t + (input.take chunk_size).length) p hp
      simp only [List.length_drop, List.length_take] at ih ⊢
      omega
termination_by input.length
decreasing_by
  simp only [List.length_drop]
  have hl : 0 < input.length := List.length_pos.mpr h
  simp only [chunk_size]
  omega

/-- The recorded counter values are monotonically non-decreasing, starting
from the initial value `t`. -/
theorem progress_iters_chain (input : List Nat) (t : Nat) :
    List.Chain' (· ≤ ·) (t :: (progress_iters input t).map Prod.snd) := by
  by_cases h : input = []
  · subst h
    rw [progress_iters_nil]
    simp
  · rw [progress_iters_cons input t h]
    simp only [List.map_cons]
    rw [List.chain'_cons]
    refine ⟨by omega, ?_⟩
    exact progress_iters_chain (input.drop chunk_size) _
termination_by input.length
decreasing_by
  simp only [List.length_drop]
  have hl : 0 < input.length := List.length_pos.mpr h
  simp only [chunk_size]
  omega

/-- Every iteration writes a nonempty chunk of at most the buffer size:
the loop only continues on a read of more than zero bytes, and a read never
exceeds the 1 MiB buffer. -/
theorem progress_iters_chunk_bounds (input : List Nat) (t : Nat) :
    ∀ cp ∈ progress_iters input t,
      0 < (Prod.fst cp).length ∧ (Prod.fst cp).length ≤ chunk_size := by
  by_cases h : input = []
  · subst h
    rw [progress_iters_nil]
    intro cp hcp
    simp at hcp
  · rw [progress_iters_cons input t h]
    intro cp hcp
    simp only [List.mem_cons] at hcp
    rcases hcp with hcp | hcp
    · subst hcp
      have hl : 0 < input.length := List.length_pos.mpr h
      have hc : 0 < chunk_size := by simp [chunk_size]
      simp only [List.length_take]
      omega
    · exact progress_iters_chunk_bounds (input.drop chunk_size) _ cp hcp
termination_by input.length
decreasing_by
  simp only [List.length_drop]
  have hl : 0 < input.length := List.length_pos.mpr h
  simp only [chunk_size]
  omega

/-- The number of loop iterations is exactly the number of 1 MiB chunks the
input splits into: it is the least `k` with `input.length ≤ chunk_size * k`.
In particular the loop always terminates after finitely many reads. -/
theorem progress_iters_count (input : List Nat) (t : Nat) :
    input.length ≤ chunk_size * (progress_iters input t).length ∧
      chunk_size * (progress_iters input t).length <
        input.length + chunk_size := by
  by_cases h : input = []
  · subst h
    rw [progress_iters_nil]
    simp [chunk_size]
  · rw [progress_iters_cons input t h]
    have ih := progress_iters_count (input.drop chunk_size)
      (t + (input.take chunk_size).length)
    have hl : 0 < input.length := List.length_pos.mpr h
    simp only [List.length_cons, List.length_drop] at ih ⊢
    have hc : chunk_size = 1024 * 1024 := rfl
    rw [hc] at ih ⊢
    omega
termination_by input.length
decreasing_by
  simp only [List.length_drop]
  have hl : 0 < input.length := List.length_pos.mpr h
  simp only [chunk_size]
  omega

/-- The chunk lengths of the progress loop sum to the source length: the
loop consumes the whole source, after which the next read returns zero
bytes and the loop exits. -/
theorem progress_iters_length_sum (input : List Nat) (t : Nat) :
    ((progress_iters input t).map (fun cp => (Prod.fst cp).length)).sum
      = input.length := by
  have hf := progress_iters_flatten input t
  have := congrArg List.length hf
  rw [List.length_flatten] at this
  simpa [Function.comp] using this

/-- The loop records at least one iteration exactly when the input is
nonempty: it exits as soon as (and only when) a read returns zero bytes. -/
theorem progress_iters_eq_nil_iff (input : List Nat) (t : Nat) :
    progress_iters input t = [] ↔ input = [] := by
  constructor
  · intro he
    by_contra h
    rw [progress_iters_cons input t h] at he
    exact List.cons_ne_nil _ _ he
  · intro h
    subst h
    exact progress_iters_nil t

/-- On a small concrete input the whole loop is a single iteration reading
all three bytes. -/
theorem progress_iters_small :
    progress_iters [1, 2, 3] 0 = [([1, 2, 3], 3)] := by
  rw [progress_iters_cons [1, 2, 3] 0 (by simp)]
  rw [List.take_of_length_le (by simp [chunk_size])]
  rw [List.drop_eq_nil_of_le (by simp [chunk_size])]
  rw [progress_iters_nil]
  norm_num

/-- C4: the compression-level resolver maps "fast" to the fast strength,
"best" to the best strength, and every other string (including "default"
and any unrecognized value) silently to the default strength; it is a total
function and never fails. -/
theorem get_compression_level_spec :
    get_compression_level "fast" = Compression.fast ∧
    get_compression_level "best" = Compression.best ∧
    get_compression_level "default" = Compression.defaultLevel ∧
    ∀ s : String, s ≠ "fast" → s ≠ "best" →
      get_compression_level s = Compression.defaultLevel := by
  refine ⟨rfl, rfl, rfl, ?_⟩
  intro s h1 h2
  unfold get_compression_level
  split
  · exact absurd rfl h1
  · exact absurd rfl h2
  · rfl

/-- C4 witness: an unrecognized level string resolves to the default
strength. -/
theorem get_compression_level_spec_witness :
    get_compression_level "turbo" = Compression.defaultLevel :=
  get_compression_level_spec.2.2.2 "turbo" (by decide) (by decide)

/-- C3: when the source path names no existing file, `compress_file`
returns an `InvalidInput` error whose message includes the offending path,
and the filesystem — in particular the destination — is left untouched:
the existence check precedes the creation of the destination. -/
theorem compress_file_missing_source (encode : Compression → List Nat → List Nat)
    (fs : FS) (source target : String) (lvl : Compression) (sp : Bool)
    (el : Nat) (h : fs source = none) :
    (compress_file encode fs source target lvl sp el).1 = fs ∧
    (compress_file encode fs source target lvl sp el).2 =
      Except.error (CompressionError.InvalidInput
        ("Source file '" ++ source ++ "' does not exist")) ∧
    ∃ pre post, "Source file '" ++ source ++ "' does not exist"
        = pre ++ source ++ post := by
  unfold compress_file
  rw [h]
  exact ⟨rfl, rfl, "Source file '", "' does not exist", rfl⟩

/-- C3 witness: on an empty filesystem the call fails with `InvalidInput`
naming the path and creates no file. -/
theorem compress_file_missing_source_witness :
    (compress_file encode0 fs_none "gone.txt" "out.gz"
        Compression.defaultLevel true 0).1 = fs_none ∧
    (compress_file encode0 fs_none "gone.txt" "out.gz"
        Compression.defaultLevel true 0).2 =
      Except.error (CompressionError.InvalidInput
        ("Source file '" ++ "gone.txt" ++ "' does not exist")) ∧
    ∃ pre post, "Source file '" ++ "gone.txt" ++ "' does not exist"
        = pre ++ "gone.txt" ++ post :=
  compress_file_missing_source encode0 fs_none "gone.txt" "out.gz"
    Compression.defaultLevel true 0 rfl

/-- C1: for an existing source and any strength, running `compress_file`
with the progress bar enabled and disabled produces byte-identical
destination content, namely the encoding of the full source: the chunked
progress loop and the bulk copy feed the same byte stream to the sink. -/
theorem compress_file_progress_equiv (encode : Compression → List Nat → List Nat)
    (fs : FS) (source target : String) (lvl : Compression) (el : Nat)
    (c : List Nat) (h : fs source = some c) :
    (compress_file encode fs source target lvl true el).1 target
      = (compress_file encode fs source target lvl false el).1 target ∧
    (compress_file encode fs source target lvl true el).1 target
      = some (encode lvl c) := by
  unfold compress_file
  rw [h]
  simp [progress_written_eq]

/-- C1 witness: on a concrete three-byte file both modes produce the same
destination bytes. -/
theorem compress_file_progress_equiv_witness :
    (compress_file encode0 fs_small "data.txt" "out.gz"
        Compression.fast true 0).1 "out.gz"
      = (compress_file encode0 fs_small "data.txt" "out.gz"
          Compression.fast false 0).1 "out.gz" ∧
    (compress_file encode0 fs_small "data.txt" "out.gz"
        Compression.fast true 0).1 "out.gz"
      = some (encode0 Compression.fast [7, 8, 9]) :=
  compress_file_progress_equiv encode0 fs_small "data.txt" "out.gz"
    Compression.fast 0 [7, 8, 9] rfl

/-- C2: on a zero-length source the division in the ratio computation has
divisor 0.0; with a gzip-style encoder whose output for empty input is
nonempty the computed `compression_ratio` is `-inf` (and it would be NaN
for an encoder emitting nothing), not a defined safe finite value such as
0.0.  The stats are still returned, with the non-finite ratio inside. -/
theorem compress_file_empty_source_ratio :
    (compress_file encode0 fs_empty "empty.txt" "out.gz"
        Compression.defaultLevel true 0).2
      = Except.ok ⟨0, 2, 0, Float64.negInf⟩ ∧
    (Float64.negInf).isFinite = false := by
  constructor
  · unfold compress_file
    rw [show fs_empty "empty.txt" = some [] from rfl]
    simp only [progress_written_eq]
    norm_num [encode0, f64div, f64sub]
  · rfl

/-- C5: on a successful compression of a nonempty source, the returned
`compression_ratio` is the finite value `1 - target_size / source_size`,
and any finite ratio the run produces is at most 1 (it may be negative when
the output is larger than the input); the computation cannot crash. -/
theorem compress_file_ratio_formula (encode : Compression → List Nat → List Nat)
    (fs : FS) (source target : String) (lvl : Compression) (sp : Bool)
    (el : Nat) (c : List Nat) (stats : CompressionStats)
    (hc : fs source = some c) (hne : c ≠ [])
    (hok : (compress_file encode fs source target lvl sp el).2
      = Except.ok stats) :
    stats.compression_ratio
      = Float64.finite (1 - (stats.target_size : ℚ) / (stats.source_size : ℚ)) ∧
    ∀ q : ℚ, stats.compression_ratio = Float64.finite q → q ≤ 1 := by
  unfold compress_file at hok
  rw [hc] at hok
  simp only [Except.ok.injEq] at hok
  subst hok
  have hlen : (c.length : ℚ) ≠ 0 := by
    have : c.length ≠ 0 := by
      intro h0
      exact hne (List.length_eq_zero.mp h0)
    exact_mod_cast this
  constructor
  · simp [f64div, f64sub, hlen]
  · intro q hq
    simp only [f64div, f64sub, if_neg hlen] at hq
    simp only [Float64.finite.injEq] at hq
    subst hq
    have hpos : (0 : ℚ) < (c.length : ℚ) := by
      rcases Nat.eq_zero_or_pos c.length with h0 | hpos
      · exact absurd (by exact_mod_cast h0) hlen
      · exact_mod_cast hpos
    have hnn : (0 : ℚ) ≤ ((encode lvl
        (if sp then progress_written c else c)).length : ℚ) / (c.length : ℚ) :=
      div_nonneg (by positivity) (le_of_lt hpos)
    linarith

/-- C5 witness: compressing a three-byte file through the two-byte-header
encoder yields ratio `1 - 5/3`, a finite value at most 1 (negative, since
the output grew). -/
theorem compress_file_ratio_formula_witness :
    ∃ stats : CompressionStats,
      (compress_file encode0 fs_small "data.txt" "out.gz"
          Compression.best false 0).2 = Except.ok stats ∧
      stats.compression_ratio = Float64.finite
        (1 - (stats.target_size : ℚ) / (stats.source_size : ℚ)) ∧
      ∀ q : ℚ, stats.compression_ratio = Float64.finite q → q ≤ 1 := by
  refine ⟨_, rfl, compress_file_ratio_formula encode0 fs_small "data.txt"
    "out.gz" Compression.best false 0 [7, 8, 9] _ rfl (by decide) rfl⟩

/-- C6: `main` returns stats or an error, never both.  A success renders
the summary and exits 0; any error renders its message (an I/O failure as
`IoError` wrapping the underlying cause, via the `From` impl) and exits 1
with no stats; a missing source surfaces as `InvalidInput`. -/
theorem main_outcome_exclusive :
    (∀ stats, run_main (Except.ok stats)
        = ⟨0, some (render_stats stats), none⟩) ∧
    (∀ e, run_main (Except.error e) = ⟨1, none, some (render_error e)⟩) ∧
    (∀ r, ((run_main r).exit_code = 0 ∧ (run_main r).summary ≠ none ∧
            (run_main r).error_line = none ∧ ∃ s, r = Except.ok s) ∨
          ((run_main r).exit_code = 1 ∧ (run_main r).summary = none ∧
            (run_main r).error_line ≠ none ∧ ∃ e, r = Except.error e)) ∧
    (∀ cause, CompressionError.of_io_error cause
        = CompressionError.IoError cause ∧
      render_error (CompressionError.of_io_error cause)
        = "IO error: " ++ cause) ∧
    (∀ (encode : Compression → List Nat → List Nat) (fs : FS)
        (source target : String) (lvl : Compression) (sp : Bool) (el : Nat),
      fs source = none →
        ∃ m, (compress_file encode fs source target lvl sp el).2
            = Except.error (CompressionError.InvalidInput m)) := by
  refine ⟨fun _ => rfl, fun _ => rfl, ?_, fun _ => ⟨rfl, rfl⟩, ?_⟩
  · intro r
    cases r with
    | ok stats => exact Or.inl ⟨rfl, by simp [run_main], rfl, stats, rfl⟩
    | error e => exact Or.inr ⟨rfl, rfl, by simp [run_main], e, rfl⟩
  · intro encode fs source target lvl sp el h
    unfold compress_file
    rw [h]
    exact ⟨_, rfl⟩

/-- C6 witness: on an empty filesystem the compression fails with
`InvalidInput`, so `main` takes the error branch. -/
theorem main_outcome_exclusive_witness :
    ∃ m, (compress_file encode0 fs_none "a.txt" "b.gz"
        Compression.fast true 0).2
      = Except.error (CompressionError.InvalidInput m) :=
  main_outcome_exclusive.2.2.2.2 encode0 fs_none "a.txt" "b.gz"
    Compression.fast true 0 rfl

/-- C7: in the progress path the byte-consumed counter advances by exactly
the written chunk's length each iteration (hence is monotonically
non-decreasing from 0), never exceeds the source size, the chunks consume
the whole source, every iteration corresponds to a read of more than zero
bytes, and the loop runs no iteration exactly when the read returns zero
bytes (empty remaining input). -/
theorem progress_counter_invariants (input : List Nat) :
    steps_ok 0 (progress_iters input 0) = true ∧
    List.Chain' (· ≤ ·) (0 :: (progress_iters input 0).map Prod.snd) ∧
    (∀ p ∈ (progress_iters input 0).map Prod.snd, p ≤ input.length) ∧
    ((progress_iters input 0).map (fun cp => (Prod.fst cp).length)).sum
      = input.length ∧
    (∀ cp ∈ progress_iters input 0, 0 < (Prod.fst cp).length) ∧
    (progress_iters input 0 = [] ↔ input = []) := by
  refine ⟨steps_ok_progress_iters input 0, progress_iters_chain input 0,
    ?_, progress_iters_length_sum input 0, ?_,
    progress_iters_eq_nil_iff input 0⟩
  · intro p hp
    have := progress_iters_pos_le input 0 p hp
    omega
  · intro cp hcp
    exact (progress_iters_chunk_bounds input 0 cp hcp).1

/-- C7 witness: on a concrete three-byte file the single recorded counter
value 3 is bounded by the source size. -/
theorem progress_counter_invariants_witness :
    (3 : Nat) ≤ ([1, 2, 3] : List Nat).length :=
  (progress_counter_invariants [1, 2, 3]).2.2.1 3
    (by rw [progress_iters_small]; simp)

/-- C9: `compress_file` is deterministic in its observable result: two
runs over the same source bytes with the same strength — on possibly
different filesystems, paths, measured times and progress settings —
produce identical destination bytes and identical `source_size`,
`target_size` and `compression_ratio` in the returned stats. -/
theorem compress_file_deterministic (encode : Compression → List Nat → List Nat)
    (fs1 fs2 : FS) (s1 s2 t1 t2 : String) (lvl : Compression)
    (sp1 sp2 : Bool) (el1 el2 : Nat) (c : List Nat)
    (h1 : fs1 s1 = some c) (h2 : fs2 s2 = some c) :
    (compress_file encode fs1 s1 t1 lvl sp1 el1).1 t1
      = (compress_file encode fs2 s2 t2 lvl sp2 el2).1 t2 ∧
    ∃ st1 st2,
      (compress_file encode fs1 s1 t1 lvl sp1 el1).2 = Except.ok st1 ∧
      (compress_file encode fs2 s2 t2 lvl sp2 el2).2 = Except.ok st2 ∧
      st1.source_size = st2.source_size ∧
      st1.target_size = st2.target_size ∧
      st1.compression_ratio = st2.compression_ratio := by
  cases sp1 <;> cases sp2 <;>
    simp [compress_file, h1, h2, progress_written_eq]

/-- C9 witness: two concrete runs over the same bytes, one with the
progress bar and one without, on different target paths and elapsed times,
agree on destination bytes, sizes and ratio. -/
theorem compress_file_deterministic_witness :
    (compress_file encode0 fs_small "data.txt" "o1.gz"
        Compression.fast true 5).1 "o1.gz"
      = (compress_file encode0 fs_small "data.txt" "o2.gz"
          Compression.fast false 9).1 "o2.gz" ∧
    ∃ st1 st2,
      (compress_file encode0 fs_small "data.txt" "o1.gz"
          Compression.fast true 5).2 = Except.ok st1 ∧
      (compress_file encode0 fs_small "data.txt" "o2.gz"
          Compression.fast false 9).2 = Except.ok st2 ∧
      st1.source_size = st2.source_size ∧
      st1.target_size = st2.target_size ∧
      st1.compression_ratio = st2.compression_ratio :=
  compress_file_deterministic encode0 fs_small fs_small "data.txt" "data.txt"
    "o1.gz" "o2.gz" Compression.fast true false 5 9 [7, 8, 9] rfl rfl

/-- C10: the chunked loop terminates for every finite source — the number
of iterations is the least `k` with `input.length ≤ chunk_size * k` — and
every slice `&buffer[..len]` is in bounds because each read length is at
most the 1 MiB buffer size. -/
theorem chunk_loop_terminates_in_bounds (input : List Nat) :
    (∀ cp ∈ progress_iters input 0, (Prod.fst cp).length ≤ chunk_size) ∧
    input.length ≤ chunk_size * (progress_iters input 0).length ∧
    chunk_size * (progress_iters input 0).length
      < input.length + chunk_size := by
  refine ⟨?_, progress_iters_count input 0⟩
  intro cp hcp
  exact (progress_iters_chunk_bounds input 0 cp hcp).2

/-- C10 witness: on a concrete three-byte file the single read is within
the 1 MiB buffer. -/
theorem chunk_loop_terminates_in_bounds_witness :
    (Prod.fst (([1, 2, 3] : List Nat), 3)).length ≤ chunk_size :=
  (chunk_loop_terminates_in_bounds [1, 2, 3]).1 ([1, 2, 3], 3)
    (by rw [progress_iters_small]; simp)

/-- Fixed-precision rounding is within half a unit in the last rendered
decimal place. -/
theorem roundTo_abs_le (d : Nat) (q : ℚ) :
    |roundTo d q - q| ≤ 1 / (2 * 10 ^ d) := by
  unfold roundTo
  have h10 : (0 : ℚ) < 10 ^ d := by positivity
  have heq : (round (q * 10 ^ d) : ℚ) / 10 ^ d - q
      = ((round (q * 10 ^ d) : ℚ) - q * 10 ^ d) / 10 ^ d := by
    field_simp
    ring
  rw [heq, abs_div, abs_of_pos h10]
  have hb := abs_sub_round (q * 10 ^ d)
  rw [abs_sub_comm] at hb
  calc |(round (q * 10 ^ d) : ℚ) - q * 10 ^ d| / 10 ^ d
      ≤ (1 / 2) / 10 ^ d := by gcongr
    _ = 1 / (2 * 10 ^ d) := by ring

/-- C8: the summary is a pure function of the stats value: the rendered
compressed size is exactly the byte count divided by 1,048,576, the
rendered source size is that quotient to two decimal places (an integer
number of hundredths, within half a hundredth of the exact value), a
finite ratio is rendered as a percentage with one decimal place (an
integer number of tenths of a percent, within half of one tenth), and the
rendered elapsed time carries sub-second (nanosecond) precision. -/
theorem render_stats_spec (stats : CompressionStats) :
    (render_stats stats).target_mb * 1048576 = (stats.target_size : ℚ) ∧
    (∃ z : ℤ, (render_stats stats).source_mb = (z : ℚ) / 100) ∧
    |(render_stats stats).source_mb - (stats.source_size : ℚ) / 1048576|
      ≤ 1 / 200 ∧
    (∀ q : ℚ, stats.compression_ratio = Float64.finite q →
      ∃ z : ℤ, (render_stats stats).ratio_percent
          = Float64.finite ((z : ℚ) / 10) ∧
        |(z : ℚ) / 10 - q * 100| ≤ 1 / 20) ∧
    (render_stats stats).elapsed_secs * 1000000000 = (stats.elapsed : ℚ) := by
  refine ⟨?_, ?_, ?_, ?_, ?_⟩
  · rw [render_stats]
    rw [div_mul_cancel₀]
    norm_num
  · exact ⟨round (((stats.source_size : ℚ) / 1048576) * 10 ^ 2), by
      rw [render_stats]
      unfold roundTo
      norm_num⟩
  · have := roundTo_abs_le 2 ((stats.source_size : ℚ) / 1048576)
    rw [render_stats]
    norm_num at this ⊢
    exact this
  · intro q hq
    refine ⟨round (q * 100 * 10 ^ 1), ?_, ?_⟩
    · rw [render_stats]
      rw [hq]
      unfold f64scale f64roundTo roundTo
      norm_num
    · have := roundTo_abs_le 1 (q * 100)
      unfold roundTo at this
      norm_num at this ⊢
      exact this
  · rw [render_stats]
    rw [div_mul_cancel₀]
    norm_num

/-- C8 witness: a concrete stats value with ratio one half renders as an
integer number of tenths of a percent near 50%. -/
theorem render_stats_spec_witness :
    ∃ z : ℤ, (render_stats
        ⟨1048576, 524288, 1500000000, Float64.finite (1 / 2)⟩).ratio_percent
        = Float64.finite ((z : ℚ) / 10) ∧
      |(z : ℚ) / 10 - (1 / 2 : ℚ) * 100| ≤ 1 / 20 :=
  (render_stats_spec
    ⟨1048576, 524288, 1500000000, Float64.finite (1 / 2)⟩).2.2.2.1
    (1 / 2) rfl

end FileCompressor
